import Mathlib

/-!
Shallow embedding of the three batch text-analysis utilities of this
repository: `compute_statistics.py`, `convert_numbers.py`, `word_count.py`.
Python floats are modelled by exact rationals (`ℚ`), Python dicts by
insertion-ordered association lists, Python lists by Lean lists, and
Python strings by Lean strings.  Fallible parsing returns `Option`.
-/

namespace PyDict

/-- `freq[value] = freq.get(value, 0) + 1` on an insertion-ordered
association list: bump the first entry with the given key, or append a
fresh entry with count 1 at the end (Python dicts preserve insertion
order). -/
def bumpCount {α : Type} [DecidableEq α] : List (α × ℕ) → α → List (α × ℕ)
  | [], v => [(v, 1)]
  | (k, c) :: rest, v =>
    if k = v then (k, c + 1) :: rest else (k, c) :: bumpCount rest v

/-- The frequency dict built by the counting loops:
`for value in values: freq[value] = freq.get(value, 0) + 1`. -/
def buildFreq {α : Type} [DecidableEq α] (values : List α) : List (α × ℕ) :=
  values.foldl bumpCount []

/-- `freq.get(v, 0)`: the count stored at the first entry with key `v`. -/
def lookupCount {α : Type} [DecidableEq α] : List (α × ℕ) → α → ℕ
  | [], _ => 0
  | (k, c) :: rest, v => if k = v then c else lookupCount rest v

/-- The keys of the dict, in insertion order. -/
def keys {α : Type} (f : List (α × ℕ)) : List α := f.map Prod.fst

/-- `max(freq.values())` (the fold with initial value 0 agrees with
Python `max` because every stored count is at least 1 and the dict is
non-empty whenever the input is). -/
def maxCount {α : Type} (f : List (α × ℕ)) : ℕ :=
  (f.map Prod.snd).foldl max 0

end PyDict

namespace PyStr

/-- Python `str.strip()`: drop whitespace from both ends (char-level,
structurally recursive so that concrete runs reduce in the kernel). -/
def strip (s : String) : String :=
  String.mk
    (((s.data.dropWhile Char.isWhitespace).reverse.dropWhile
      Char.isWhitespace).reverse)

/-- Worker for Python `str.split()` with no separator: accumulate the
current token (reversed) and cut at whitespace runs, discarding empty
pieces. -/
def splitWsGo : List Char → List Char → List (List Char)
  | [], cur => if cur.isEmpty then [] else [cur.reverse]
  | c :: rest, cur =>
    if c.isWhitespace then
      if cur.isEmpty then splitWsGo rest []
      else cur.reverse :: splitWsGo rest []
    else splitWsGo rest (c :: cur)

/-- Python `str.split()` with no separator: split on whitespace runs,
with no empty tokens. -/
def split (s : String) : List String :=
  (splitWsGo s.data []).map String.mk

end PyStr

namespace ComputeStatistics

/-- `mean` from compute_statistics.py: accumulate the sum in encounter
order, then divide by the count. -/
def mean (values : List ℚ) : ℚ :=
  (values.foldl (fun total v => total + v) 0) / (values.length : ℚ)

/-- `median` from compute_statistics.py: sort ascending, take the middle
element for odd length and the average of the two middle elements for
even length.  Python `sorted` is modelled by `List.insertionSort`;
out-of-range indexing (possible only on the empty list, on which the
source raises) is totalised with default `0`. -/
def median (values : List ℚ) : ℚ :=
  let sorted_vals := values.insertionSort (· ≤ ·)
  let n := sorted_vals.length
  let mid := n / 2
  if n % 2 = 1 then sorted_vals.getD mid 0
  else (sorted_vals.getD (mid - 1) 0 + sorted_vals.getD mid 0) / 2

/-- `mode` from compute_statistics.py: build the frequency dict, take the
maximum count; if it is at most 1 report no mode as `([], 1)`, otherwise
collect (in dict iteration order) every value whose count equals the
maximum and sort the result ascending. -/
def mode (values : List ℚ) : List ℚ × ℕ :=
  let freq := PyDict.buildFreq values
  let max_count := PyDict.maxCount freq
  if max_count ≤ 1 then ([], 1)
  else
    (((freq.filter (fun p => p.2 = max_count)).map Prod.fst).insertionSort
      (· ≤ ·), max_count)

/-- `variance` from compute_statistics.py: accumulate squared deviations
from `avg` and divide by the full count N (population variance). -/
def variance (values : List ℚ) (avg : ℚ) : ℚ :=
  (values.foldl (fun total value => total + (value - avg) * (value - avg)) 0)
    / (values.length : ℚ)

/-- `std_deviation` from compute_statistics.py: `math.sqrt(var)`,
modelled over the reals. -/
noncomputable def std_deviation (var : ℝ) : ℝ := Real.sqrt var

/-- The population variance exactly as the spec words it: the mean of the
squared deviations from the mean, with divisor N. -/
def population_variance_spec (values : List ℚ) : ℚ :=
  ((values.map (fun v => (v - mean values) ^ 2)).sum) / (values.length : ℚ)

/-- Value of a digit run, most significant first (helper for the float
parser model). -/
def digitsVal (cs : List Char) : ℕ :=
  cs.foldl (fun a c => 10 * a + (c.toNat - 48)) 0

/-- Optional exponent suffix of a Python float literal: empty, or
`e`/`E`, an optional sign, and at least one digit. -/
def pyFloatExp (m : ℚ) : List Char → Option (Option ℚ)
  | [] => some (some m)
  | e :: rest =>
    if e = 'e' ∨ e = 'E' then
      let signedRest : ℤ × List Char :=
        match rest with
        | '+' :: r => (1, r)
        | '-' :: r => (-1, r)
        | r => (1, r)
      if signedRest.2 ≠ [] ∧ signedRest.2.all Char.isDigit then
        some (some (m * (10 : ℚ) ^ (signedRest.1 * (digitsVal signedRest.2 : ℤ))))
      else none
    else none

/-- Modelled from the spec: the body of Python's builtin `float(...)`
after the optional sign — digits with an optional point and optional
exponent yield a finite value (`some (some q)`), the words `inf`,
`infinity`, `nan` parse but are non-finite (`some none`), and anything
else raises `ValueError` (`none`).  `float` is an external builtin, not
part of this repository; only its interface (parse error / non-finite /
finite value) matters to the pipeline. -/
def pyFloatCore (cs : List Char) : Option (Option ℚ) :=
  let lower := cs.map Char.toLower
  if lower = "inf".data ∨ lower = "infinity".data ∨ lower = "nan".data then
    some none
  else
    let intPart := cs.takeWhile Char.isDigit
    let rest1 := cs.dropWhile Char.isDigit
    match rest1 with
    | [] =>
      if intPart = [] then none else some (some (digitsVal intPart : ℚ))
    | '.' :: rest2 =>
      let fracPart := rest2.takeWhile Char.isDigit
      let rest3 := rest2.dropWhile Char.isDigit
      if intPart = [] ∧ fracPart = [] then none
      else
        pyFloatExp
          ((digitsVal intPart : ℚ) +
            (digitsVal fracPart : ℚ) / (10 : ℚ) ^ fracPart.length) rest3
    | _ =>
      if intPart = [] then none else pyFloatExp (digitsVal intPart : ℚ) rest1

/-- Modelled from the spec: Python `float(line)` on a stripped line,
with the sign handled in front of `pyFloatCore`. -/
def pyFloat (s : String) : Option (Option ℚ) :=
  match s.data with
  | '+' :: rest => pyFloatCore rest
  | '-' :: rest => (pyFloatCore rest).map (Option.map (fun q => -q))
  | cs => pyFloatCore cs

/-- One iteration of the line loop of `read_numbers_from_file` in
compute_statistics.py: a blank line, a parse error (`ValueError`), or a
non-finite parse increments the invalid counter; a finite value is
appended to the sample list. -/
def statsStep (parseFloat : String → Option (Option ℚ))
    (acc : List ℚ × ℕ) (raw_line : String) : List ℚ × ℕ :=
  let line := PyStr.strip raw_line
  if line.isEmpty then (acc.1, acc.2 + 1)
  else
    match parseFloat line with
    | some (some value) => (acc.1 ++ [value], acc.2)
    | some none => (acc.1, acc.2 + 1)
    | none => (acc.1, acc.2 + 1)

/-- `read_numbers_from_file` from compute_statistics.py, over the list of
raw lines of the already-opened file, parameterised by the float parser
(the builtin `float` composed with the `math.isfinite` check). -/
def read_numbers_from_file (parseFloat : String → Option (Option ℚ))
    (rawLines : List String) : List ℚ × ℕ :=
  rawLines.foldl (statsStep parseFloat) ([], 0)

/-- The observable outcome of `main` in compute_statistics.py, with the
aggregate summary abstracted: either the early "no valid data" report or
a computed report. -/
inductive StatsReport (α : Type) where
  | noData (invalidCount : ℕ)
  | computed (summary : α) (count : ℕ) (invalidCount : ℕ)
deriving DecidableEq

/-- `main` from compute_statistics.py after reading the input, with the
aggregation step passed as a function: when the valid sample list is
empty the pipeline emits the fallback report without consulting the
aggregator; otherwise it runs the aggregator on the samples. -/
def runStatistics {α : Type} (aggregate : List ℚ → α)
    (rawLines : List String) : StatsReport α :=
  let r := read_numbers_from_file pyFloat rawLines
  if r.1.isEmpty then StatsReport.noData r.2
  else StatsReport.computed (aggregate r.1) r.1.length r.2

end ComputeStatistics

namespace ConvertNumbers

/-- The digit-run scan of `parse_int_strict` in convert_numbers.py:
abort with `none` at the first character outside `0`-`9`, otherwise
accumulate `value = value * 10 + digit`. -/
def scanDigits : ℕ → List Char → Option ℕ
  | value, [] => some value
  | value, ch :: rest =>
    if ch < '0' ∨ '9' < ch then none
    else scanDigits (value * 10 + (ch.toNat - 48)) rest

/-- The character-level body of `parse_int_strict`: empty line invalid;
an optional single leading `+` or `-`; a sign with nothing after it
invalid; then the digit scan, with the sign applied at the end.  The
boolean is the success flag of the source. -/
def parseIntStrictChars : List Char → Bool × ℤ
  | [] => (false, 0)
  | c :: rest =>
    let sign : ℤ := if c = '-' then -1 else 1
    let ds := if c = '+' ∨ c = '-' then rest else c :: rest
    if ds = [] then (false, 0)
    else
      match scanDigits 0 ds with
      | none => (false, 0)
      | some value => (true, sign * (value : ℤ))

/-- `parse_int_strict` from convert_numbers.py on a stripped line. -/
def parse_int_strict (text : String) : Bool × ℤ :=
  parseIntStrictChars text.data

/-- The `while value > 0` loop of `convert_positive_to_base`, collecting
remainder digits least-significant first.  The loop is embedded with a
fuel argument bounding the iteration count; `fuel = n` suffices for the
source's call sites (base 2 and base 16), since the value strictly
decreases on every iteration for any base of at least 2. -/
def collectDigitsRev : ℕ → ℕ → ℕ → List Char → List Char
  | 0, _, _, _ => []
  | fuel + 1, value, base, digits =>
    if 0 < value then
      digits.getD (value % base) ' ' ::
        collectDigitsRev fuel (value / base) base digits
    else []

/-- `convert_positive_to_base` from convert_numbers.py: `0` maps to
`"0"`; otherwise repeated division collects the remainder digits
least-significant first and the list is reversed at the end. -/
def convert_positive_to_base (n : ℕ) (base : ℕ) (digits : List Char) : String :=
  if n = 0 then "0"
  else String.mk (collectDigitsRev n n base digits).reverse

/-- `HEX_DIGITS` from convert_numbers.py. -/
def HEX_DIGITS : List Char := "0123456789ABCDEF".data

/-- The binary digit table `"01"` passed inline in the source. -/
def BIN_DIGITS : List Char := "01".data

/-- `to_binary` from convert_numbers.py: convert the absolute value and
prepend `-` for negative input. -/
def to_binary (n : ℤ) : String :=
  if n < 0 then "-" ++ convert_positive_to_base (-n).toNat 2 BIN_DIGITS
  else convert_positive_to_base n.toNat 2 BIN_DIGITS

/-- `to_hex` from convert_numbers.py. -/
def to_hex (n : ℤ) : String :=
  if n < 0 then "-" ++ convert_positive_to_base (-n).toNat 16 HEX_DIGITS
  else convert_positive_to_base n.toNat 16 HEX_DIGITS

/-- Re-parsing a digit string as a base-2 literal, as the spec's
round-trip property words it: most-significant-first Horner evaluation
of the binary digits. -/
def parse_base2_literal (s : String) : ℕ :=
  s.data.foldl (fun acc c => 2 * acc + (if c = '1' then 1 else 0)) 0

/-- The character list after the optional sign of the strict integer
grammar (spec-side helper for stating the parser's acceptance
condition). -/
def stripSign : List Char → List Char
  | [] => []
  | c :: rest => if c = '+' ∨ c = '-' then rest else c :: rest

/-- The sign denoted by the optional leading sign character (spec-side
helper). -/
def signVal : List Char → ℤ
  | [] => 1
  | c :: _ => if c = '-' then -1 else 1

/-- `read_numbers` from convert_numbers.py over the raw lines of the
opened file: strip each line, parse it strictly, append the value on
success and bump the invalid counter on failure. -/
def read_numbers (rawLines : List String) : List ℤ × ℕ :=
  rawLines.foldl
    (fun acc raw_line =>
      let line := PyStr.strip raw_line
      let r := parse_int_strict line
      if r.1 then (acc.1 ++ [r.2], acc.2)
      else (acc.1, acc.2 + 1))
    ([], 0)

/-- Value of a least-significant-first digit-character list in base 2
(proof-side semantics of the list collected by the conversion loop). -/
def bitsValLSB (l : List Char) : ℕ :=
  l.foldr (fun c acc => (if c = '1' then 1 else 0) + 2 * acc) 0

end ConvertNumbers

namespace WordCount

/-- The apostrophe character kept by `normalize_word`. -/
def apostropheChar : Char := Char.ofNat 39

/-- Modelled from the spec: Python's builtin `str.isalnum()` on a single
character (an external Unicode-aware builtin, not part of this
repository).  The model is exact on the ASCII range and on the two
non-ASCII code points this development analyses: U+0130 (LATIN CAPITAL
LETTER I WITH DOT ABOVE, alphanumeric) and U+0307 (COMBINING DOT ABOVE,
not alphanumeric).  Other non-ASCII characters are outside the model
(classified false); the theorems about all tokens therefore carry an
ASCII hypothesis, and the concrete inputs use only exactly-modelled
code points. -/
def pyIsAlnum (c : Char) : Bool :=
  decide ((48 ≤ c.toNat ∧ c.toNat ≤ 57) ∨ (65 ≤ c.toNat ∧ c.toNat ≤ 90) ∨
    (97 ≤ c.toNat ∧ c.toNat ≤ 122) ∨ c.toNat = 0x130)

/-- Modelled from the spec: Python's builtin `str.lower()` on a single
character, which returns a string (an external Unicode-aware builtin).
Exact on the ASCII range, on U+0130 — the one Unicode code point whose
lowercase expands to two characters, U+0069 followed by U+0307 — and on
characters without a lowercase mapping (returned unchanged).  Non-ASCII
one-character lowercase mappings are outside the model. -/
def pyLowerChar (c : Char) : List Char :=
  if 65 ≤ c.toNat ∧ c.toNat ≤ 90 then [Char.ofNat (c.toNat + 32)]
  else if c.toNat = 0x130 then [Char.ofNat 0x69, Char.ofNat 0x307]
  else [c]

/-- `normalize_word` from word_count.py: keep only the characters that
are alphanumeric or an apostrophe, appending the (possibly multi-
character) lowercasing of each kept character; `"".join` of the pieces
is the flattening. -/
def normalize_word (token : String) : String :=
  String.mk
    (((token.data.filter
      (fun ch => pyIsAlnum ch || ch = apostropheChar)).map
        pyLowerChar).flatten)

/-- U+0130, LATIN CAPITAL LETTER I WITH DOT ABOVE. -/
def iWithDotAbove : Char := Char.ofNat 0x130

/-- U+0307, COMBINING DOT ABOVE. -/
def combiningDotAbove : Char := Char.ofNat 0x307

/-- Python `line.split()`: split on whitespace runs, discarding empty
pieces. -/
def splitTokens (line : String) : List String :=
  PyStr.split line

/-- One iteration of the token loop of `read_and_count_words` in
word_count.py: an empty normalization bumps the invalid counter, a
non-empty word is tallied and counted as valid. -/
def wcTokenStep (acc : List (String × ℕ) × ℕ × ℕ) (token : String) :
    List (String × ℕ) × ℕ × ℕ :=
  let word := normalize_word token
  if word.isEmpty then (acc.1, acc.2.1, acc.2.2 + 1)
  else (PyDict.bumpCount acc.1 word, acc.2.1 + 1, acc.2.2)

/-- One iteration of the line loop of `read_and_count_words` in
word_count.py: a blank line bumps the invalid counter, a non-blank line
runs the token loop over its whitespace tokens. -/
def wcLineStep (acc : List (String × ℕ) × ℕ × ℕ) (raw_line : String) :
    List (String × ℕ) × ℕ × ℕ :=
  let line := PyStr.strip raw_line
  if line.isEmpty then (acc.1, acc.2.1, acc.2.2 + 1)
  else (splitTokens line).foldl wcTokenStep acc

/-- `read_and_count_words` from word_count.py over the raw lines of the
opened file.  Returns `(freq, total_words, invalid_items)`. -/
def read_and_count_words (rawLines : List String) :
    List (String × ℕ) × ℕ × ℕ :=
  rawLines.foldl wcLineStep ([], 0, 0)

/-- Lexicographic comparison of character lists by code point: the
comparison Python uses on strings inside sort keys. -/
def charListLe : List Char → List Char → Bool
  | [], _ => true
  | _ :: _, [] => false
  | a :: as, b :: bs =>
    if a < b then true
    else if b < a then false
    else charListLe as bs

/-- The sort key `(-count, word)` of `format_results` in word_count.py,
as a relation: higher count first, ties broken by ascending word (code
point lexicographic, as Python compares strings). -/
def itemLe (a b : String × ℕ) : Prop :=
  b.2 < a.2 ∨ (a.2 = b.2 ∧ charListLe a.1.data b.1.data = true)

instance : DecidableRel itemLe := fun a b =>
  inferInstanceAs (Decidable (b.2 < a.2 ∨ (a.2 = b.2 ∧ _ = true)))

theorem charListLe_total : ∀ a b, charListLe a b = true ∨ charListLe b a = true
  | [], _ => Or.inl rfl
  | _ :: _, [] => Or.inr rfl
  | a :: as, b :: bs => by
    rcases lt_trichotomy a b with h | h | h
    · left
      simp [charListLe, h]
    · subst h
      rcases charListLe_total as bs with h2 | h2
      · left
        simp [charListLe, h2]
      · right
        simp [charListLe, h2]
    · right
      simp [charListLe, h]

theorem charListLe_trans :
    ∀ a b c, charListLe a b = true → charListLe b c = true →
      charListLe a c = true
  | [], _, _ => by intro _ _; rfl
  | x :: xs, [], _ => by
    intro h _
    exact absurd h (by simp [charListLe])
  | x :: xs, y :: ys, [] => by
    intro _ h
    exact absurd h (by simp [charListLe])
  | x :: xs, y :: ys, z :: zs => by
    intro h1 h2
    by_cases hxy : x < y
    · by_cases hyz : y < z
      · simp [charListLe, lt_trans hxy hyz]
      · by_cases hzy : z < y
        · simp [charListLe, hzy, asymm hzy] at h2
        · have heq : y = z := by
            rcases lt_trichotomy y z with h | h | h
            · exact absurd h hyz
            · exact h
            · exact absurd h hzy
          subst heq
          simp [charListLe, hxy]
    · by_cases hyx : y < x
      · simp [charListLe, hxy, hyx] at h1
      · have heq : x = y := by
          rcases lt_trichotomy x y with h | h | h
          · exact absurd h hxy
          · exact h
          · exact absurd h hyx
        subst heq
        simp only [charListLe, if_neg (lt_irrefl x)] at h1
        by_cases hxz : x < z
        · simp [charListLe, hxz]
        · by_cases hzx : z < x
          · simp [charListLe, hxz, hzx] at h2
          · have heq : x = z := by
              rcases lt_trichotomy x z with h | h | h
              · exact absurd h hxz
              · exact h
              · exact absurd h hzx
            subst heq
            simp only [charListLe, if_neg (lt_irrefl x)] at h2 ⊢
            exact charListLe_trans xs ys zs h1 h2

theorem charListLe_antisymm :
    ∀ a b, charListLe a b = true → charListLe b a = true → a = b
  | [], [] => by intro _ _; rfl
  | [], _ :: _ => by
    intro _ h
    exact absurd h (by simp [charListLe])
  | _ :: _, [] => by
    intro h _
    exact absurd h (by simp [charListLe])
  | x :: xs, y :: ys => by
    intro h1 h2
    by_cases hxy : x < y
    · simp [charListLe, hxy, asymm hxy] at h2
    · by_cases hyx : y < x
      · simp [charListLe, hxy, hyx] at h1
      · have heq : x = y := by
          rcases lt_trichotomy x y with h | h | h
          · exact absurd h hxy
          · exact h
          · exact absurd h hyx
        subst heq
        simp only [charListLe, if_neg (lt_irrefl x)] at h1 h2
        rw [charListLe_antisymm xs ys h1 h2]

instance : IsTotal (String × ℕ) itemLe where
  total a b := by
    rcases Nat.lt_trichotomy a.2 b.2 with h | h | h
    · exact Or.inr (Or.inl h)
    · rcases charListLe_total a.1.data b.1.data with hw | hw
      · exact Or.inl (Or.inr ⟨h, hw⟩)
      · exact Or.inr (Or.inr ⟨h.symm, hw⟩)
    · exact Or.inl (Or.inl h)

instance : IsTrans (String × ℕ) itemLe where
  trans a b c hab hbc := by
    rcases hab with h1 | ⟨h1, hw1⟩ <;> rcases hbc with h2 | ⟨h2, hw2⟩
    · exact Or.inl (h2.trans h1)
    · exact Or.inl (h2 ▸ h1)
    · exact Or.inl (h1 ▸ h2)
    · exact Or.inr ⟨h1.trans h2, charListLe_trans _ _ _ hw1 hw2⟩

instance : IsAntisymm (String × ℕ) itemLe where
  antisymm a b hab hba := by
    rcases hab with h1 | ⟨h1, hw1⟩ <;> rcases hba with h2 | ⟨h2, hw2⟩
    · omega
    · omega
    · omega
    · exact Prod.ext (String.ext (charListLe_antisymm _ _ hw1 hw2)) h1

/-- `items.sort(key=lambda item: (-item[1], item[0]))` from
word_count.py's `format_results`. -/
def sortItems (items : List (String × ℕ)) : List (String × ℕ) :=
  items.insertionSort itemLe

/-- `format_results` from word_count.py: the header lines, the sorted
`word -> count` lines, and the elapsed-time line, joined by newlines
with a trailing newline.  The elapsed seconds, formatted `:.6f` in the
source, are abstracted as a string. -/
def format_results (freq : List (String × ℕ)) (total_words : ℕ)
    (distinct_words : ℕ) (invalid_items : ℕ) (elapsedStr : String) : String :=
  String.intercalate "\n"
    (["=== Word Count Results ===",
      s!"Total valid words counted: {total_words}",
      s!"Distinct words: {distinct_words}",
      s!"Invalid items skipped: {invalid_items}",
      "",
      "Word -> Frequency",
      "-----------------"]
      ++ (sortItems freq).map (fun p => s!"{p.1} -> {p.2}")
      ++ ["", s!"Elapsed time (s): {elapsedStr}"]) ++ "\n"

/-- The report text `main` of word_count.py writes to
WordCountResults.txt. -/
def wordCountFileText (rawLines : List String) (elapsedStr : String) : String :=
  let r := read_and_count_words rawLines
  format_results r.1 r.2.1 r.1.length r.2.2 elapsedStr

/-- `str(type(output))` for a `str` value: the text Python prints for
the expression `type(output)`. -/
def pyStrOfTypeStr : String := "<class \x27str\x27>"

/-- What `main` of word_count.py actually sends to the console:
line 171 reads `print(type(output), end="")`, so the console receives
the rendering of the *type* of the report string, not the report
itself. -/
def wordCountConsoleText (rawLines : List String) (elapsedStr : String) :
    String :=
  pyStrOfTypeStr

/-- Total number of whitespace tokens over all (stripped) lines: the
items the scan of word_count.py tokenizes. -/
def totalTokens (rawLines : List String) : ℕ :=
  (rawLines.map (fun l => (splitTokens (PyStr.strip l)).length)).sum

/-- Number of blank lines, each of which the scan counts as one invalid
item without yielding any token. -/
def blankLines (rawLines : List String) : ℕ :=
  (rawLines.filter (fun l => (PyStr.strip l).isEmpty)).length

end WordCount

/-! ## Association-list dictionary lemmas -/

namespace PyDict

theorem lookupCount_bumpCount {α : Type} [DecidableEq α]
    (f : List (α × ℕ)) (v w : α) :
    lookupCount (bumpCount f v) w =
      if w = v then lookupCount f w + 1 else lookupCount f w := by
  induction f with
  | nil =>
    by_cases h : w = v
    · subst h; simp [bumpCount, lookupCount]
    · simp only [bumpCount, lookupCount, if_neg h]
      rw [if_neg (fun hh => h hh.symm)]
  | cons p rest ih =>
    obtain ⟨k, c⟩ := p
    by_cases hkv : k = v
    · subst hkv
      by_cases hwk : w = k
      · subst hwk; simp [bumpCount, lookupCount]
      · have hkw : ¬ k = w := fun hh => hwk hh.symm
        simp [bumpCount, lookupCount, hwk, hkw]
    · by_cases hkw : k = w
      · have hwv : ¬ w = v := fun h => hkv (hkw.trans h)
        simp [bumpCount, lookupCount, hkv, hkw, hwv]
      · simp [bumpCount, lookupCount, hkv, hkw, ih]

theorem lookupCount_foldl_bumpCount {α : Type} [DecidableEq α]
    (l : List α) (acc : List (α × ℕ)) (v : α) :
    lookupCount (l.foldl bumpCount acc) v = lookupCount acc v + l.count v := by
  induction l generalizing acc with
  | nil => simp [lookupCount]
  | cons x xs ih =>
    rw [List.foldl_cons, ih, lookupCount_bumpCount, List.count_cons]
    by_cases h : v = x
    · simp [h]
      omega
    · simp [h]
      exact fun hh => h hh.symm

theorem mem_keys_bumpCount {α : Type} [DecidableEq α]
    (f : List (α × ℕ)) (v w : α) :
    v ∈ keys (bumpCount f w) ↔ v ∈ keys f ∨ v = w := by
  induction f with
  | nil => simp [bumpCount, keys]
  | cons p rest ih =>
    obtain ⟨k, c⟩ := p
    by_cases hk : k = w
    · subst hk
      simp [bumpCount, keys, List.mem_cons]
      tauto
    · simp only [bumpCount, if_neg hk, keys, List.map_cons, List.mem_cons] at *
      rw [ih]
      tauto

theorem nodup_keys_bumpCount {α : Type} [DecidableEq α]
    (f : List (α × ℕ)) (w : α) (h : (keys f).Nodup) :
    (keys (bumpCount f w)).Nodup := by
  induction f with
  | nil => simp [bumpCount, keys]
  | cons p rest ih =>
    obtain ⟨k, c⟩ := p
    rw [keys, List.map_cons, List.nodup_cons] at h
    by_cases hk : k = w
    · subst hk
      have hb : bumpCount ((k, c) :: rest) k = (k, c + 1) :: rest := by
        simp [bumpCount]
      rw [hb, keys, List.map_cons, List.nodup_cons]
      exact ⟨h.1, h.2⟩
    · rw [bumpCount, if_neg hk, keys, List.map_cons, List.nodup_cons]
      refine ⟨fun hmem => ?_, ih h.2⟩
      rcases (mem_keys_bumpCount rest k w).1 (by simpa [keys] using hmem) with h2 | h2
      · exact h.1 (by simpa [keys] using h2)
      · exact hk h2

theorem mem_keys_foldl_bumpCount {α : Type} [DecidableEq α]
    (l : List α) (acc : List (α × ℕ)) (v : α) :
    v ∈ keys (l.foldl bumpCount acc) ↔ v ∈ keys acc ∨ v ∈ l := by
  induction l generalizing acc with
  | nil => simp
  | cons x xs ih =>
    rw [List.foldl_cons, ih, mem_keys_bumpCount]
    simp [List.mem_cons]
    tauto

theorem nodup_keys_buildFreq {α : Type} [DecidableEq α] (l : List α) :
    (keys (buildFreq l)).Nodup := by
  have h : ∀ (l : List α) (acc : List (α × ℕ)),
      (keys acc).Nodup → (keys (l.foldl bumpCount acc)).Nodup := by
    intro l
    induction l with
    | nil => intro acc h; simpa using h
    | cons x xs ih =>
      intro acc hacc
      exact ih _ (nodup_keys_bumpCount acc x hacc)
  exact h l [] (by simp [keys])

theorem mem_iff_lookupCount {α : Type} [DecidableEq α]
    (f : List (α × ℕ)) (hnd : (keys f).Nodup) (v : α) (c : ℕ) :
    (v, c) ∈ f ↔ v ∈ keys f ∧ c = lookupCount f v := by
  induction f with
  | nil => simp [keys, lookupCount]
  | cons p rest ih =>
    obtain ⟨k, c'⟩ := p
    rw [keys, List.map_cons, List.nodup_cons] at hnd
    by_cases hv : v = k
    · subst hv
      constructor
      · intro h
        rcases List.mem_cons.1 h with h | h
        · cases h
          exact ⟨by simp [keys], by simp [lookupCount]⟩
        · exact absurd (by simpa [keys] using List.mem_map_of_mem Prod.fst h)
            (by simpa [keys] using hnd.1)
      · rintro ⟨-, rfl⟩
        have hl : lookupCount ((v, c') :: rest) v = c' := by simp [lookupCount]
        rw [hl]
        exact List.mem_cons_self _ _
    · have hkv : ¬ k = v := fun h => hv h.symm
      simp only [lookupCount, if_neg hkv, keys, List.map_cons, List.mem_cons]
      rw [← keys, ih hnd.2]
      constructor
      · intro h
        rcases h with h | h
        · exfalso; exact hv (congrArg Prod.fst h)
        · exact ⟨Or.inr h.1, h.2⟩
      · rintro ⟨hk, rfl⟩
        rcases hk with hk | hk
        · exact absurd hk hv
        · exact Or.inr ⟨hk, rfl⟩

theorem le_foldl_max_init (l : List ℕ) (a : ℕ) : a ≤ l.foldl max a := by
  induction l generalizing a with
  | nil => simp
  | cons x xs ih => exact le_trans (Nat.le_max_left a x) (ih (max a x))

theorem le_foldl_max_mem {l : List ℕ} {b : ℕ} (hb : b ∈ l) (a : ℕ) :
    b ≤ l.foldl max a := by
  induction l generalizing a with
  | nil => cases hb
  | cons x xs ih =>
    rcases List.mem_cons.1 hb with rfl | hb
    · exact le_trans (Nat.le_max_right a b) (le_foldl_max_init xs _)
    · exact ih hb _

theorem foldl_max_mem (l : List ℕ) (a : ℕ) :
    l.foldl max a = a ∨ l.foldl max a ∈ l := by
  induction l generalizing a with
  | nil => exact Or.inl rfl
  | cons x xs ih =>
    rcases ih (max a x) with h | h
    · rcases max_choice a x with h2 | h2
      · exact Or.inl (by rw [List.foldl_cons, h, h2])
      · exact Or.inr (by rw [List.foldl_cons, h, h2]; exact List.mem_cons_self x xs)
    · exact Or.inr (List.mem_cons_of_mem x h)

end PyDict

/-! ## Base-converter and strict-integer-parser lemmas -/

namespace ConvertNumbers

theorem bitsValLSB_cons (c : Char) (l : List Char) :
    bitsValLSB (c :: l) = (if c = '1' then 1 else 0) + 2 * bitsValLSB l := rfl

theorem bitsValLSB_collectDigitsRev (fuel v : ℕ) (hv : v ≤ fuel) :
    bitsValLSB (collectDigitsRev fuel v 2 BIN_DIGITS) = v := by
  induction fuel generalizing v with
  | zero =>
    have : v = 0 := by omega
    subst this
    simp [collectDigitsRev, bitsValLSB]
  | succ fuel ih =>
    by_cases h : 0 < v
    · rw [collectDigitsRev, if_pos h, bitsValLSB_cons, ih _ (by omega)]
      rcases Nat.mod_two_eq_zero_or_one v with h2 | h2
      · rw [h2, show BIN_DIGITS.getD 0 ' ' = '0' from rfl,
          if_neg (by decide : ¬ ('0' : Char) = '1')]
        omega
      · rw [h2, show BIN_DIGITS.getD 1 ' ' = '1' from rfl, if_pos rfl]
        omega
    · have : v = 0 := by omega
      subst this
      simp [collectDigitsRev, bitsValLSB]

theorem parse_fold_reverse (l : List Char) (acc : ℕ) :
    (l.reverse).foldl (fun a c => 2 * a + (if c = '1' then 1 else 0)) acc
      = acc * 2 ^ l.length + bitsValLSB l := by
  induction l generalizing acc with
  | nil => simp [bitsValLSB]
  | cons c t ih =>
    rw [List.reverse_cons, List.foldl_append, ih, bitsValLSB_cons]
    show 2 * (acc * 2 ^ t.length + bitsValLSB t) + (if c = '1' then 1 else 0)
      = acc * 2 ^ (c :: t).length + _
    rw [List.length_cons]
    ring

theorem collectDigitsRev_mem (fuel v : ℕ) :
    ∀ c ∈ collectDigitsRev fuel v 2 BIN_DIGITS, c = '0' ∨ c = '1' := by
  induction fuel generalizing v with
  | zero => simp [collectDigitsRev]
  | succ fuel ih =>
    by_cases h : 0 < v
    · rw [collectDigitsRev, if_pos h]
      intro c hc
      rcases List.mem_cons.1 hc with rfl | hc
      · rcases Nat.mod_two_eq_zero_or_one v with h2 | h2
        · rw [h2]; exact Or.inl rfl
        · rw [h2]; exact Or.inr rfl
      · exact ih _ c hc
    · rw [collectDigitsRev, if_neg h]
      simp

theorem parse_base2_roundtrip (n : ℕ) :
    parse_base2_literal (convert_positive_to_base n 2 BIN_DIGITS) = n := by
  by_cases h : n = 0
  · subst h; decide
  · rw [convert_positive_to_base, if_neg h]
    show (collectDigitsRev n n 2 BIN_DIGITS).reverse.foldl _ 0 = n
    rw [parse_fold_reverse, bitsValLSB_collectDigitsRev n n le_rfl]
    ring

theorem not_lt_digit_iff_isDigit (c : Char) :
    (¬ (c < '0' ∨ '9' < c)) ↔ c.isDigit = true := by
  simp [Char.isDigit, Char.lt_def, UInt32.lt_def, UInt32.le_def, BitVec.lt_def,
    BitVec.le_def, not_or]

theorem scanDigits_isSome_iff (ds : List Char) (v0 : ℕ) :
    (scanDigits v0 ds).isSome = true ↔ ds.all Char.isDigit = true := by
  induction ds generalizing v0 with
  | nil => simp [scanDigits]
  | cons c t ih =>
    by_cases h : c < '0' ∨ '9' < c
    · rw [scanDigits, if_pos h]
      have hd : ¬ c.isDigit = true := fun hd =>
        ((not_lt_digit_iff_isDigit c).2 hd) h
      simp [List.all_cons, hd]
    · rw [scanDigits, if_neg h]
      have hd : c.isDigit = true := (not_lt_digit_iff_isDigit c).1 h
      rw [ih]
      simp [List.all_cons, hd]

theorem scanDigits_eq_foldl (ds : List Char) (v0 : ℕ)
    (h : ds.all Char.isDigit = true) :
    scanDigits v0 ds =
      some (ds.foldl (fun v c => v * 10 + (c.toNat - 48)) v0) := by
  induction ds generalizing v0 with
  | nil => simp [scanDigits]
  | cons c t ih =>
    rw [List.all_cons, Bool.and_eq_true] at h
    rw [scanDigits, if_neg ((not_lt_digit_iff_isDigit c).2 h.1),
      List.foldl_cons, ih _ h.2]

/-- C1: converting a non-negative integer to base 2 and re-parsing the
digit string as a base-2 literal recovers the integer; `to_binary 0` and
`to_hex 0` are `"0"`; a negative integer converts to `-` prepended to
the conversion of its absolute value (`to_binary (-5) = "-101"`); a
non-negative integer (zero in particular) is never rendered with a
sign. -/
theorem claim_C1_base_converter :
    (∀ n : ℕ, parse_base2_literal (convert_positive_to_base n 2 BIN_DIGITS) = n) ∧
    to_binary 0 = "0" ∧
    to_hex 0 = "0" ∧
    (∀ n : ℤ, n < 0 →
      to_binary n = "-" ++ to_binary (-n) ∧ to_hex n = "-" ++ to_hex (-n)) ∧
    to_binary (-5) = "-101" ∧
    (∀ n : ℤ, 0 ≤ n → ∀ c ∈ (to_binary n).data, c ≠ '-') := by
  refine ⟨parse_base2_roundtrip, by decide, by decide, ?_, by decide, ?_⟩
  · intro n hn
    constructor
    · rw [to_binary, if_pos hn, to_binary, if_neg (by omega : ¬ -n < 0)]
    · rw [to_hex, if_pos hn, to_hex, if_neg (by omega : ¬ -n < 0)]
  · intro n hn c hc
    rw [to_binary, if_neg (by omega : ¬ n < 0)] at hc
    by_cases h0 : n.toNat = 0
    · rw [convert_positive_to_base, if_pos h0] at hc
      rw [show ("0" : String).data = ['0'] from rfl] at hc
      rcases List.mem_singleton.1 hc with rfl
      decide
    · rw [convert_positive_to_base, if_neg h0] at hc
      have hc2 : c ∈ (collectDigitsRev n.toNat n.toNat 2 BIN_DIGITS).reverse := hc
      rw [List.mem_reverse] at hc2
      rcases collectDigitsRev_mem _ _ c hc2 with rfl | rfl <;> decide

/-- Witness for C1 at concrete inputs. -/
theorem claim_C1_witness :
    to_binary (-7) = "-" ++ to_binary 7 ∧
    parse_base2_literal (convert_positive_to_base 6 2 BIN_DIGITS) = 6 ∧
    ∀ c ∈ (to_binary 5).data, c ≠ '-' :=
  ⟨(claim_C1_base_converter.2.2.2.1 (-7) (by decide)).1,
    claim_C1_base_converter.1 6,
    claim_C1_base_converter.2.2.2.2.2 5 (by decide)⟩

/-- C7: the strict integer parser accepts exactly an optional single
leading sign followed by at least one character, all of which are ASCII
digits; on success the value is the decimal fold `value*10 + digit` over
the digit run with the sign applied at the end. -/
theorem claim_C7_parse_int_strict (s : String) :
    ((parse_int_strict s).1 = true ↔
      (s.data ≠ [] ∧ stripSign s.data ≠ [] ∧
        (stripSign s.data).all Char.isDigit = true)) ∧
    ((parse_int_strict s).1 = true →
      (parse_int_strict s).2 =
        signVal s.data *
          (((stripSign s.data).foldl (fun v c => v * 10 + (c.toNat - 48)) 0 : ℕ) : ℤ)) := by
  rcases hs : s.data with _ | ⟨c, rest⟩ <;> rw [parse_int_strict, hs]
  · constructor
    · simp [parseIntStrictChars]
    · simp [parseIntStrictChars]
  · simp only [parseIntStrictChars, stripSign, signVal]
    by_cases hd : (if c = '+' ∨ c = '-' then rest else c :: rest) = []
    · rw [if_pos hd]
      constructor
      · simp [hd]
      · simp
    · rw [if_neg hd]
      rcases hsc : scanDigits 0 (if c = '+' ∨ c = '-' then rest else c :: rest)
        with _ | v
      · have hall : ¬ (if c = '+' ∨ c = '-' then rest else c :: rest).all
            Char.isDigit = true := by
          rw [← scanDigits_isSome_iff _ 0, hsc]
          simp
        constructor
        · simp [hall]
        · simp
      · have hsome : (scanDigits 0
            (if c = '+' ∨ c = '-' then rest else c :: rest)).isSome = true := by
          rw [hsc]
          rfl
        have hall := (scanDigits_isSome_iff _ 0).1 hsome
        have hv : v = (if c = '+' ∨ c = '-' then rest else c :: rest).foldl
            (fun v c => v * 10 + (c.toNat - 48)) 0 := by
          have heq := scanDigits_eq_foldl
            (if c = '+' ∨ c = '-' then rest else c :: rest) 0 hall
          rw [hsc] at heq
          exact Option.some.inj heq
        constructor
        · simp [hall, hd]
        · intro _
          simp [hv]

/-- Witness for C7 at a concrete input. -/
theorem claim_C7_witness :
    (parse_int_strict "-123").1 = true ∧
    (parse_int_strict "-123").2 =
      signVal ("-123" : String).data *
        (((stripSign ("-123" : String).data).foldl
          (fun v c => v * 10 + (c.toNat - 48)) 0 : ℕ) : ℤ) :=
  ⟨by decide, (claim_C7_parse_int_strict "-123").2 (by decide)⟩

end ConvertNumbers

/-! ## Statistics-aggregator lemmas -/

namespace PyDict

theorem count_eq_lookupCount_buildFreq {α : Type} [DecidableEq α]
    (l : List α) (v : α) :
    l.count v = lookupCount (buildFreq l) v := by
  rw [buildFreq, lookupCount_foldl_bumpCount]
  simp [lookupCount]

theorem mem_keys_buildFreq {α : Type} [DecidableEq α] (l : List α) (v : α) :
    v ∈ keys (buildFreq l) ↔ v ∈ l := by
  rw [buildFreq, mem_keys_foldl_bumpCount]
  simp [keys]

theorem count_le_maxCount {α : Type} [DecidableEq α]
    (l : List α) (v : α) (hv : v ∈ l) :
    l.count v ≤ maxCount (buildFreq l) := by
  have hmem : (v, lookupCount (buildFreq l) v) ∈ buildFreq l :=
    (mem_iff_lookupCount _ (nodup_keys_buildFreq l) v _).2
      ⟨(mem_keys_buildFreq l v).2 hv, rfl⟩
  have hsnd : lookupCount (buildFreq l) v ∈ (buildFreq l).map Prod.snd :=
    List.mem_map_of_mem Prod.snd hmem
  rw [count_eq_lookupCount_buildFreq]
  exact le_foldl_max_mem hsnd 0

theorem exists_count_eq_maxCount {α : Type} [DecidableEq α]
    (l : List α) (hl : l ≠ []) :
    ∃ v ∈ l, l.count v = maxCount (buildFreq l) := by
  obtain ⟨v0, hv0⟩ := List.exists_mem_of_ne_nil l hl
  have hpos : 1 ≤ maxCount (buildFreq l) := by
    have h1 : 0 < l.count v0 := List.count_pos_iff.2 hv0
    have h2 := count_le_maxCount l v0 hv0
    omega
  rcases foldl_max_mem ((buildFreq l).map Prod.snd) 0 with h | h
  · rw [maxCount] at hpos
    omega
  · obtain ⟨⟨v, c⟩, hmem, hc⟩ := List.mem_map.1 h
    have h2 := (mem_iff_lookupCount _ (nodup_keys_buildFreq l) v c).1 hmem
    refine ⟨v, (mem_keys_buildFreq l v).1 h2.1, ?_⟩
    rw [count_eq_lookupCount_buildFreq, ← h2.2]
    exact hc

theorem mem_buildFreq_iff {α : Type} [DecidableEq α] (l : List α) (v : α) (c : ℕ) :
    (v, c) ∈ buildFreq l ↔ v ∈ l ∧ c = l.count v := by
  rw [mem_iff_lookupCount _ (nodup_keys_buildFreq l), mem_keys_buildFreq,
    count_eq_lookupCount_buildFreq]

end PyDict

namespace ComputeStatistics

/-- C2: for a non-empty sample list, `mode` takes the maximum
multiplicity of the frequency dict (which is the true maximum
multiplicity of the list); when it is at most 1 the mode list is empty,
otherwise the result pairs that maximum with exactly the values of
maximal multiplicity, sorted ascending. -/
theorem claim_C2_mode (l : List ℚ) (hl : l ≠ []) :
    (∀ v ∈ l, l.count v ≤ PyDict.maxCount (PyDict.buildFreq l)) ∧
    (∃ v ∈ l, l.count v = PyDict.maxCount (PyDict.buildFreq l)) ∧
    (PyDict.maxCount (PyDict.buildFreq l) ≤ 1 → mode l = ([], 1)) ∧
    (1 < PyDict.maxCount (PyDict.buildFreq l) →
      (mode l).2 = PyDict.maxCount (PyDict.buildFreq l) ∧
      (mode l).1.Sorted (· ≤ ·) ∧
      (∀ v : ℚ, v ∈ (mode l).1 ↔
        v ∈ l ∧ l.count v = PyDict.maxCount (PyDict.buildFreq l))) := by
  refine ⟨fun v hv => PyDict.count_le_maxCount l v hv,
    PyDict.exists_count_eq_maxCount l hl, fun h => ?_, fun h => ?_⟩
  · simp only [mode]
    rw [if_pos h]
  · have hnot : ¬ PyDict.maxCount (PyDict.buildFreq l) ≤ 1 := by omega
    refine ⟨?_, ?_, ?_⟩
    · simp only [mode]
      rw [if_neg hnot]
    · simp only [mode]
      rw [if_neg hnot]
      exact List.sorted_insertionSort _ _
    · intro v
      simp only [mode]
      rw [if_neg hnot]
      show v ∈ (((PyDict.buildFreq l).filter _).map Prod.fst).insertionSort _ ↔ _
      rw [List.mem_insertionSort]
      constructor
      · intro hv
        obtain ⟨⟨pv, pc⟩, hpmem, hpv⟩ := List.mem_map.1 hv
        obtain ⟨hpfreq, hpc⟩ := List.mem_filter.1 hpmem
        have hpc2 : pc = PyDict.maxCount (PyDict.buildFreq l) := by
          simpa using hpc
        subst hpc2
        cases hpv
        have := (PyDict.mem_buildFreq_iff l pv _).1 hpfreq
        exact ⟨this.1, this.2.symm⟩
      · intro ⟨hvl, hvc⟩
        refine List.mem_map.2 ⟨(v, PyDict.maxCount (PyDict.buildFreq l)),
          List.mem_filter.2 ⟨?_, by simp⟩, rfl⟩
        exact (PyDict.mem_buildFreq_iff l v _).2 ⟨hvl, hvc.symm⟩

/-- Witness for C2 at the spec's concrete examples. -/
theorem claim_C2_witness :
    mode [1, 1, 2, 2, 3] = ([1, 2], 2) ∧ mode [1, 2, 3] = ([], 1) :=
  ⟨by decide, (claim_C2_mode [1, 2, 3] (by decide)).2.2.1 (by decide)⟩

end ComputeStatistics

namespace ComputeStatistics

/-- C3: `median` of a non-empty list returns the middle element of the
ascending sort for odd length, and the average of the two middle
elements for even length — stated against any sorted permutation of the
input, which is unique. -/
theorem claim_C3_median (l : List ℚ) (hl : l ≠ []) (s : List ℚ)
    (hperm : s.Perm l) (hsort : s.Sorted (· ≤ ·)) :
    (l.length % 2 = 1 → median l = s.getD (l.length / 2) 0) ∧
    (l.length % 2 = 0 →
      median l =
        (s.getD (l.length / 2 - 1) 0 + s.getD (l.length / 2) 0) / 2) := by
  have hs : s = l.insertionSort (· ≤ ·) :=
    List.eq_of_perm_of_sorted
      (hperm.trans (List.perm_insertionSort _ l).symm) hsort
      (List.sorted_insertionSort _ l)
  subst hs
  constructor
  · intro hodd
    simp only [median, List.length_insertionSort]
    rw [if_pos hodd]
  · intro heven
    simp only [median, List.length_insertionSort]
    rw [if_neg (by omega : ¬ l.length % 2 = 1)]

/-- Witness for C3 at the spec's concrete examples. -/
theorem claim_C3_witness :
    median [1, 2, 3] = 2 ∧ median [1, 2, 3, 4] = 5 / 2 := by
  constructor
  · have h := (claim_C3_median [1, 2, 3] (by decide) [1, 2, 3]
      (List.Perm.refl _) (by decide)).1 (by decide)
    rw [h]
    norm_num [List.getD]
  · have h := (claim_C3_median [1, 2, 3, 4] (by decide) [1, 2, 3, 4]
      (List.Perm.refl _) (by decide)).2 (by decide)
    rw [h]
    norm_num [List.getD]

theorem foldl_sq_dev (l : List ℚ) (avg a : ℚ) :
    l.foldl (fun total value => total + (value - avg) * (value - avg)) a
      = a + (l.map (fun v => (v - avg) ^ 2)).sum := by
  induction l generalizing a with
  | nil => simp
  | cons x xs ih =>
    rw [List.foldl_cons, ih, List.map_cons, List.sum_cons]
    ring

theorem variance_nonneg (l : List ℚ) (avg : ℚ) : 0 ≤ variance l avg := by
  rw [variance, foldl_sq_dev, zero_add]
  apply div_nonneg
  · apply List.sum_nonneg
    intro x hx
    obtain ⟨v, hv, rfl⟩ := List.mem_map.1 hx
    positivity
  · exact_mod_cast Nat.zero_le _

/-- C4: `variance` at the pipeline's mean is the population variance
(mean of squared deviations, divisor N), it is non-negative, and
`std_deviation` is its square root (so its square gives back the
variance). -/
theorem claim_C4_variance_std (l : List ℚ) (hl : l ≠ []) :
    variance l (mean l) = population_variance_spec l ∧
    0 ≤ variance l (mean l) ∧
    std_deviation ((variance l (mean l) : ℚ) : ℝ) =
      Real.sqrt ((variance l (mean l) : ℚ) : ℝ) ∧
    std_deviation ((variance l (mean l) : ℚ) : ℝ) ^ 2 =
      ((variance l (mean l) : ℚ) : ℝ) := by
  refine ⟨?_, variance_nonneg l _, rfl, ?_⟩
  · rw [variance, population_variance_spec, foldl_sq_dev, zero_add]
  · rw [std_deviation, Real.sq_sqrt]
    exact_mod_cast variance_nonneg l _

/-- Witness for C4 at a concrete input. -/
theorem claim_C4_witness :
    variance [1, 3] (mean [1, 3]) = population_variance_spec [1, 3] ∧
    0 ≤ variance [1, 3] (mean [1, 3]) ∧
    std_deviation ((variance [1, 3] (mean [1, 3]) : ℚ) : ℝ) ^ 2 =
      ((variance [1, 3] (mean [1, 3]) : ℚ) : ℝ) :=
  ⟨(claim_C4_variance_std [1, 3] (by decide)).1,
    (claim_C4_variance_std [1, 3] (by decide)).2.1,
    (claim_C4_variance_std [1, 3] (by decide)).2.2.2⟩

end ComputeStatistics

/-! ## Word-count ordering, console output, and empty-input guard -/

namespace WordCount

/-- C5: the report sort is a permutation of the frequency items sorted
by the deterministic total order "higher count first, ties by ascending
word"; any list sorted that way is uniquely determined (reproducibility);
the two spec examples hold through the full pipeline. -/
theorem claim_C5_report_ordering :
    (∀ items : List (String × ℕ),
      (sortItems items).Perm items ∧ (sortItems items).Sorted itemLe) ∧
    (∀ items s : List (String × ℕ),
      s.Perm items → s.Sorted itemLe → s = sortItems items) ∧
    sortItems (read_and_count_words ["a a b"]).1 = [("a", 2), ("b", 1)] ∧
    sortItems (read_and_count_words ["b a"]).1 = [("a", 1), ("b", 1)] := by
  refine ⟨fun items =>
      ⟨List.perm_insertionSort _ _, List.sorted_insertionSort _ _⟩,
    fun items s hp hs => List.eq_of_perm_of_sorted
      (hp.trans (List.perm_insertionSort _ _).symm) hs
      (List.sorted_insertionSort _ _), by decide, by decide⟩

/-- Witness for C5: the uniqueness clause applied at a concrete
permutation. -/
theorem claim_C5_witness :
    [("a", 2), ("b", 1)] = sortItems [("b", 1), ("a", 2)] :=
  claim_C5_report_ordering.2.1 [("b", 1), ("a", 2)] [("a", 2), ("b", 1)]
    (List.Perm.swap _ _ _) (by decide)

/-- C8 (code bug in word_count.py): on a concrete run the console text —
the rendering of `type(output)` that line 171 (`print(type(output),
end="")`) actually emits — differs from the report text written to
WordCountResults.txt, although both the spec and the module docstring
say the console receives the full report. -/
theorem claim_C8_wordcount_console_bug :
    wordCountConsoleText ["a a b"] "0.000001"
      ≠ wordCountFileText ["a a b"] "0.000001" := by
  decide

end WordCount

namespace ComputeStatistics

/-- C9: when every line is invalid (the valid sample list is empty) the
statistics pipeline returns the "no valid data" report without
consulting the aggregation function: the outcome is identical for any
two aggregators, and equals the fallback report. -/
theorem claim_C9_empty_guard :
    (∀ (α : Type) (agg1 agg2 : List ℚ → α) (rawLines : List String),
      (read_numbers_from_file pyFloat rawLines).1 = [] →
      runStatistics agg1 rawLines = runStatistics agg2 rawLines) ∧
    (∀ (α : Type) (agg : List ℚ → α) (rawLines : List String),
      (read_numbers_from_file pyFloat rawLines).1 = [] →
      runStatistics agg rawLines =
        StatsReport.noData (read_numbers_from_file pyFloat rawLines).2) := by
  constructor
  · intro α agg1 agg2 rawLines h
    simp [runStatistics, h]
  · intro α agg rawLines h
    simp [runStatistics, h]

/-- Witness for C9 at a concrete all-invalid input. -/
theorem claim_C9_witness :
    runStatistics (fun l => mean l) ["x", "", "nan"] =
      runStatistics (fun _ => (0 : ℚ)) ["x", "", "nan"] ∧
    runStatistics (fun l => mean l) ["x", "", "nan"] =
      StatsReport.noData
        (read_numbers_from_file pyFloat ["x", "", "nan"]).2 :=
  ⟨claim_C9_empty_guard.1 ℚ _ _ _ (by decide),
    claim_C9_empty_guard.2 ℚ _ _ (by decide)⟩

end ComputeStatistics

/-! ## Counter invariants of the scans -/

namespace ComputeStatistics

theorem statsStep_len (parseFloat : String → Option (Option ℚ))
    (acc : List ℚ × ℕ) (raw_line : String) :
    (statsStep parseFloat acc raw_line).1.length
      + (statsStep parseFloat acc raw_line).2 = acc.1.length + acc.2 + 1 := by
  by_cases h : (PyStr.strip raw_line).isEmpty
  · simp [statsStep, h]
    omega
  · rcases hp : parseFloat (PyStr.strip raw_line) with _ | o
    · simp [statsStep, h, hp]
      omega
    · rcases o with _ | v
      · simp [statsStep, h, hp]
        omega
      · simp [statsStep, h, hp]
        omega

theorem read_numbers_from_file_len (parseFloat : String → Option (Option ℚ))
    (rawLines : List String) :
    (read_numbers_from_file parseFloat rawLines).1.length
      + (read_numbers_from_file parseFloat rawLines).2 = rawLines.length := by
  suffices h : ∀ (lines : List String) (acc : List ℚ × ℕ),
      (lines.foldl (statsStep parseFloat) acc).1.length
        + (lines.foldl (statsStep parseFloat) acc).2
        = acc.1.length + acc.2 + lines.length by
    simpa [read_numbers_from_file] using h rawLines ([], 0)
  intro lines
  induction lines with
  | nil => intro acc; simp
  | cons x xs ih =>
    intro acc
    rw [List.foldl_cons, ih]
    have := statsStep_len parseFloat acc x
    simp only [List.length_cons]
    omega

end ComputeStatistics

namespace ConvertNumbers

theorem read_numbers_len (rawLines : List String) :
    (read_numbers rawLines).1.length + (read_numbers rawLines).2
      = rawLines.length := by
  suffices h : ∀ (lines : List String) (acc : List ℤ × ℕ),
      ((lines.foldl (fun acc raw_line =>
          let line := PyStr.strip raw_line
          let r := parse_int_strict line
          if r.1 then (acc.1 ++ [r.2], acc.2)
          else (acc.1, acc.2 + 1)) acc).1.length
        + (lines.foldl (fun acc raw_line =>
          let line := PyStr.strip raw_line
          let r := parse_int_strict line
          if r.1 then (acc.1 ++ [r.2], acc.2)
          else (acc.1, acc.2 + 1)) acc).2)
        = acc.1.length + acc.2 + lines.length by
    simpa [read_numbers] using h rawLines ([], 0)
  intro lines
  induction lines with
  | nil => intro acc; simp
  | cons x xs ih =>
    intro acc
    rw [List.foldl_cons, ih]
    by_cases h : (parse_int_strict (PyStr.strip x)).1
    · simp only [h, if_true, List.length_append, List.length_cons]
      simp
      omega
    · simp only [h, if_false, List.length_cons]
      simp [h]
      omega

end ConvertNumbers

namespace WordCount

theorem wcTokenStep_sum (acc : List (String × ℕ) × ℕ × ℕ) (token : String) :
    (wcTokenStep acc token).2.1 + (wcTokenStep acc token).2.2
      = acc.2.1 + acc.2.2 + 1 := by
  by_cases h : (normalize_word token).isEmpty
  · simp [wcTokenStep, h]
    omega
  · simp [wcTokenStep, h]
    omega

theorem wcTokenStep_foldl_sum (tokens : List String)
    (acc : List (String × ℕ) × ℕ × ℕ) :
    (tokens.foldl wcTokenStep acc).2.1 + (tokens.foldl wcTokenStep acc).2.2
      = acc.2.1 + acc.2.2 + tokens.length := by
  induction tokens generalizing acc with
  | nil => simp
  | cons t ts ih =>
    rw [List.foldl_cons, ih]
    have := wcTokenStep_sum acc t
    simp only [List.length_cons]
    omega

theorem wcLineStep_sum (acc : List (String × ℕ) × ℕ × ℕ)
    (raw_line : String) :
    (wcLineStep acc raw_line).2.1 + (wcLineStep acc raw_line).2.2
      = acc.2.1 + acc.2.2 + (splitTokens (PyStr.strip raw_line)).length
        + (if (PyStr.strip raw_line).isEmpty then 1 else 0) := by
  by_cases h : (PyStr.strip raw_line).isEmpty
  · have hsplit : splitTokens (PyStr.strip raw_line) = [] := by
      rw [(String.isEmpty_iff _).1 h]
      rfl
    simp [wcLineStep, h, hsplit]
    omega
  · simp [wcLineStep, h, wcTokenStep_foldl_sum]

theorem read_and_count_words_sum (rawLines : List String) :
    (read_and_count_words rawLines).2.1 + (read_and_count_words rawLines).2.2
      = totalTokens rawLines + blankLines rawLines := by
  suffices h : ∀ (lines : List String) (acc : List (String × ℕ) × ℕ × ℕ),
      (lines.foldl wcLineStep acc).2.1 + (lines.foldl wcLineStep acc).2.2
        = acc.2.1 + acc.2.2 + totalTokens lines + blankLines lines by
    simpa [read_and_count_words] using h rawLines ([], 0, 0)
  intro lines
  induction lines with
  | nil => intro acc; simp [totalTokens, blankLines]
  | cons x xs ih =>
    intro acc
    rw [List.foldl_cons, ih]
    have hstep := wcLineStep_sum acc x
    have htok : totalTokens (x :: xs)
        = (splitTokens (PyStr.strip x)).length + totalTokens xs := by
      simp [totalTokens]
    by_cases h : (PyStr.strip x).isEmpty
    · have hblank : blankLines (x :: xs) = blankLines xs + 1 := by
        simp [blankLines, List.filter_cons, h]
      rw [htok, hblank]
      rw [if_pos h] at hstep
      omega
    · have hblank : blankLines (x :: xs) = blankLines xs := by
        simp [blankLines, List.filter_cons, h]
      rw [htok, hblank]
      rw [if_neg h] at hstep
      omega

end WordCount

/-- C6 counterexample: in word-count mode a blank line is counted as an
invalid item although it yields no token, so for the input consisting of
a blank line followed by `a b` the valid-token plus invalid-item total
is 3 while only 2 tokens are scanned. -/
theorem claim_C6_counterexample :
    ¬ ((WordCount.read_and_count_words ["", "a b"]).2.1
        + (WordCount.read_and_count_words ["", "a b"]).2.2
        = WordCount.totalTokens ["", "a b"]) := by
  decide

/-- C6 (amended): in statistics and conversion mode every scanned line
is classified valid or invalid, so `valid + invalid = total lines`; in
word-count mode each blank line is one invalid item that yields no
token, so `valid_tokens + invalid_items = total tokens + blank lines`;
the spec's concrete statistics example (3 numeric lines, 2 blank lines)
gives `count = 3` and `invalid_count = 2`. -/
theorem claim_C6_count_invariants :
    (∀ (parseFloat : String → Option (Option ℚ)) (rawLines : List String),
      (ComputeStatistics.read_numbers_from_file parseFloat rawLines).1.length
        + (ComputeStatistics.read_numbers_from_file parseFloat rawLines).2
        = rawLines.length) ∧
    (∀ rawLines : List String,
      (ConvertNumbers.read_numbers rawLines).1.length
        + (ConvertNumbers.read_numbers rawLines).2 = rawLines.length) ∧
    (∀ rawLines : List String,
      (WordCount.read_and_count_words rawLines).2.1
        + (WordCount.read_and_count_words rawLines).2.2
        = WordCount.totalTokens rawLines + WordCount.blankLines rawLines) ∧
    (ComputeStatistics.read_numbers_from_file ComputeStatistics.pyFloat
        ["1", "", "2", "", "3"]).1.length = 3 ∧
    (ComputeStatistics.read_numbers_from_file ComputeStatistics.pyFloat
        ["1", "", "2", "", "3"]).2 = 2 :=
  ⟨ComputeStatistics.read_numbers_from_file_len,
    ConvertNumbers.read_numbers_len,
    WordCount.read_and_count_words_sum,
    by decide, by decide⟩

/-! ## Word normalization (C10) -/

namespace WordCount

theorem pyIsAlnum_iff (c : Char) :
    pyIsAlnum c = true ↔
      (48 ≤ c.toNat ∧ c.toNat ≤ 57) ∨ (65 ≤ c.toNat ∧ c.toNat ≤ 90) ∨
        (97 ≤ c.toNat ∧ c.toNat ≤ 122) ∨ c.toNat = 0x130 := by
  simp [pyIsAlnum]

theorem isUpper_iff_toNat (c : Char) :
    c.isUpper = true ↔ 65 ≤ c.toNat ∧ c.toNat ≤ 90 := by
  simp [Char.isUpper, UInt32.le_def, BitVec.le_def, Char.toNat, UInt32.toNat]

theorem isUpper_eq_false_of_not (c : Char)
    (h : ¬ (65 ≤ c.toNat ∧ c.toNat ≤ 90)) : c.isUpper = false := by
  cases hb : c.isUpper
  · rfl
  · exact absurd ((isUpper_iff_toNat c).1 hb) h

theorem char_toNat_ofNat_valid {n : ℕ} (h : n < 55296) :
    (Char.ofNat n).toNat = n := by
  have hv : n.isValidChar := Or.inl h
  rw [Char.ofNat, dif_pos hv]
  rfl

theorem pyLowerChar_self (c : Char) (h1 : ¬ (65 ≤ c.toNat ∧ c.toNat ≤ 90))
    (h2 : ¬ c.toNat = 0x130) : pyLowerChar c = [c] := by
  rw [pyLowerChar, if_neg h1, if_neg h2]

theorem apostropheChar_toNat : apostropheChar.toNat = 39 := by decide

theorem kept_char_out (c : Char) (hascii : c.toNat ≤ 127)
    (hkeep : (pyIsAlnum c || c = apostropheChar) = true) :
    ∀ d ∈ pyLowerChar c,
      ((pyIsAlnum d = true ∧ d.isUpper = false) ∨ d = apostropheChar) ∧
      (pyIsAlnum d || d = apostropheChar) = true ∧
      pyLowerChar d = [d] := by
  rcases (by simpa using hkeep :
      pyIsAlnum c = true ∨ c = apostropheChar) with h | h
  · rcases (pyIsAlnum_iff c).1 h with hd | hu | hl | h304
    · intro d hd2
      rw [pyLowerChar_self c (by omega) (by omega)] at hd2
      obtain rfl := List.mem_singleton.1 hd2
      have ha : pyIsAlnum d = true := (pyIsAlnum_iff _).2 (Or.inl hd)
      exact ⟨Or.inl ⟨ha, isUpper_eq_false_of_not _ (by omega)⟩,
        by simp [ha], pyLowerChar_self _ (by omega) (by omega)⟩
    · intro d hd2
      rw [pyLowerChar, if_pos hu] at hd2
      obtain rfl := List.mem_singleton.1 hd2
      have ht : (Char.ofNat (c.toNat + 32)).toNat = c.toNat + 32 :=
        char_toNat_ofNat_valid (by omega)
      have ha : pyIsAlnum (Char.ofNat (c.toNat + 32)) = true :=
        (pyIsAlnum_iff _).2 (Or.inr (Or.inr (Or.inl (by omega))))
      exact ⟨Or.inl ⟨ha, isUpper_eq_false_of_not _ (by omega)⟩,
        by simp [ha], pyLowerChar_self _ (by omega) (by omega)⟩
    · intro d hd2
      rw [pyLowerChar_self c (by omega) (by omega)] at hd2
      obtain rfl := List.mem_singleton.1 hd2
      have ha : pyIsAlnum d = true :=
        (pyIsAlnum_iff _).2 (Or.inr (Or.inr (Or.inl hl)))
      exact ⟨Or.inl ⟨ha, isUpper_eq_false_of_not _ (by omega)⟩,
        by simp [ha], pyLowerChar_self _ (by omega) (by omega)⟩
    · exact fun d _ => absurd h304 (by omega)
  · subst h
    have h39 := apostropheChar_toNat
    intro d hd2
    rw [pyLowerChar_self _ (by omega) (by omega)] at hd2
    obtain rfl := List.mem_singleton.1 hd2
    exact ⟨Or.inr rfl, by simp,
      pyLowerChar_self _ (by omega) (by omega)⟩

theorem flatten_map_singleton {α : Type} (l : List α) :
    (l.map (fun a => [a])).flatten = l := by
  induction l with
  | nil => rfl
  | cons x xs ih => simp [ih]

theorem sublist_flatten_of_sublist {α : Type} {l1 l2 : List (List α)}
    (h : l1.Sublist l2) : l1.flatten.Sublist l2.flatten := by
  induction h with
  | slnil => exact List.Sublist.refl _
  | cons a h ih =>
    exact ih.trans (List.sublist_append_right a _)
  | cons₂ a h ih =>
    exact ih.append_left a

/-- C10 (amended): for every token whose characters are all ASCII,
`normalize_word` is idempotent and its output consists only of
non-uppercase alphanumerics and apostrophes; for every token the output
preserves the relative order of the kept characters — it is a
subsequence of the concatenation of the characters' lowercasings. -/
theorem claim_C10_normalize_word (t : String) :
    ((∀ c ∈ t.data, c.toNat ≤ 127) →
      normalize_word (normalize_word t) = normalize_word t ∧
      (∀ c ∈ (normalize_word t).data,
        (pyIsAlnum c = true ∧ c.isUpper = false) ∨ c = apostropheChar)) ∧
    (normalize_word t).data.Sublist ((t.data.map pyLowerChar).flatten) := by
  have hdata : ∀ s : String, (normalize_word s).data =
      ((s.data.filter
        (fun ch => pyIsAlnum ch || ch = apostropheChar)).map
          pyLowerChar).flatten := fun s => rfl
  constructor
  · intro hascii
    have hout : ∀ d ∈ (normalize_word t).data,
        ((pyIsAlnum d = true ∧ d.isUpper = false) ∨ d = apostropheChar) ∧
        (pyIsAlnum d || d = apostropheChar) = true ∧
        pyLowerChar d = [d] := by
      intro d hd
      rw [hdata] at hd
      obtain ⟨ds, hds, hdin⟩ := List.mem_flatten.1 hd
      obtain ⟨c0, hc0, rfl⟩ := List.mem_map.1 hds
      have hc0f := List.mem_filter.1 hc0
      exact kept_char_out c0 (hascii c0 hc0f.1) hc0f.2 d hdin
    constructor
    · apply String.ext
      rw [hdata (normalize_word t),
        List.filter_eq_self.2 (fun d hd => (hout d hd).2.1),
        List.map_congr_left (fun d hd => (hout d hd).2.2),
        flatten_map_singleton]
    · exact fun c hc => (hout c hc).1
  · rw [hdata]
    exact sublist_flatten_of_sublist
      (List.Sublist.map pyLowerChar (List.filter_sublist _))

/-- C10 counterexample: on the token consisting of the single character
U+0130, whose lowercase is the two characters U+0069 U+0307,
`normalize_word` is not idempotent (renormalizing drops the combining
dot), and its output contains U+0307, which is neither alphanumeric nor
an apostrophe — refuting both the idempotence and the
character-class conjuncts of the claim as stated. -/
theorem claim_C10_counterexample :
    normalize_word (normalize_word (String.mk [iWithDotAbove]))
        ≠ normalize_word (String.mk [iWithDotAbove]) ∧
    combiningDotAbove ∈ (normalize_word (String.mk [iWithDotAbove])).data ∧
    pyIsAlnum combiningDotAbove = false ∧
    combiningDotAbove ≠ apostropheChar := by
  refine ⟨by decide, by decide, by decide, by decide⟩

/-- Witness for C10 at a concrete ASCII token. -/
theorem claim_C10_witness :
    normalize_word (normalize_word "Hello,") = normalize_word "Hello," ∧
    (normalize_word "Hello,").data.Sublist
      ((("Hello," : String).data.map pyLowerChar).flatten) :=
  ⟨((claim_C10_normalize_word "Hello,").1 (by decide)).1,
    (claim_C10_normalize_word "Hello,").2⟩

end WordCount
